import Mathlib

/-!
Verification of the dynamic reframing engine of NBAShortener.

The embedded code lives in `src/modules/ball_tracker.py` (class
`PlayerTracker`) together with the crop-and-pad logic of
`src/modules/clipper.py` (`VideoClipper._format_with_ball_tracking`,
inner function `make_frame`).

Modelling conventions:
- Pixel coordinates and dimensions are `Int` (Python ints).  Python's
  floor division `//` with a positive divisor coincides with Lean's
  `Int` division `/`, which is used throughout (all divisors in the
  source are positive literals).
- OpenCV primitives (`findContours`, `contourArea`, `moments`,
  `HOGDescriptor`, `TrackerCSRT`) are opaque: a contour is modelled by
  the numbers the code reads off it (its area and its moments), person
  detection results are an input list of boxes, and the CSRT tracker's
  per-frame answer is an input `Option BBox`.  The decision logic that
  the repository itself implements is embedded verbatim.
- `np.float64` arithmetic is idealised as `ℚ`.  The source compares
  `np.sqrt` of sums of integer squares only with `<`; since square
  roots are strictly monotone, those comparisons are embedded as
  comparisons of the squared distances.
- Python's `int(...)` on a nonnegative float is truncation towards
  zero, embedded as `intTrunc`.
-/

namespace NBAShortener

/-- A 2-D integer pixel position `(x, y)`. -/
structure Point where
  x : Int
  y : Int
deriving DecidableEq, Repr

/-- A bounding box `(x, y, w, h)` in image-plane coordinates. -/
structure BBox where
  x : Int
  y : Int
  w : Int
  h : Int
deriving DecidableEq, Repr

/-- Python `int()` applied to an exact rational: truncation towards zero
(the numerator t-divided by the denominator). -/
def intTrunc (q : ℚ) : Int := q.num.tdiv q.den

/-- Squared Euclidean distance between two points.  The source computes
`np.sqrt((ax-bx)**2 + (ay-by)**2)` and only ever compares such values with
`<`; strict monotonicity of `sqrt` makes the squared comparison equivalent. -/
def distSq (a b : Point) : Int := (a.x - b.x) ^ 2 + (a.y - b.y) ^ 2

/-- Center of a bounding box, `(x + w // 2, y + h // 2)`
(ball_tracker.py lines 135-136 and 156-157). -/
def boxCenter (b : BBox) : Point := ⟨b.x + b.w / 2, b.y + b.h / 2⟩

/-! ### Object locator: ball detection (`PlayerTracker.detect_ball_position`) -/

/-- What the code reads off one OpenCV contour: `cv2.contourArea` and the
moments `m00`, `m10`, `m01` used for the centroid. -/
structure Contour where
  area : ℚ
  m00 : ℚ
  m10 : ℚ
  m01 : ℚ
deriving DecidableEq, Repr

/-- `max(contours, key=cv2.contourArea)` (line 51): Python's `max` keeps the
first element among those with the maximal key. -/
def largestContour : List Contour → Option Contour
  | [] => none
  | c :: cs => some (cs.foldl (fun best d => if d.area > best.area then d else best) c)

/-- `PlayerTracker.detect_ball_position`, lines 46-64, after the opaque
mask/contour extraction: pick the largest contour, reject it when its area
is outside `[50, 50000]` or its zeroth moment is zero, otherwise return the
truncated centroid `(int(m10/m00), int(m01/m00))`. -/
def detect_ball_position (contours : List Contour) : Option Point :=
  match largestContour contours with
  | none => none
  | some c =>
    if c.area < 50 ∨ c.area > 50000 then none
    else if c.m00 = 0 then none
    else some ⟨intTrunc (c.m10 / c.m00), intTrunc (c.m01 / c.m00)⟩

/-! ### Subject selector (`PlayerTracker.find_player_with_ball`) -/

/-- The shared loop shape of lines 131-143 and 152-163: scan the boxes
keeping the first strictly-closest center to `target`, together with its
squared distance.  `none` plays the role of the initial `min_dist = inf`,
`closest_player = None` state. -/
def closestStep (target : Point) (acc : Option (Int × Point)) (b : BBox) :
    Option (Int × Point) :=
  match acc with
  | none => some (distSq target (boxCenter b), boxCenter b)
  | some (m, p) =>
    if distSq target (boxCenter b) < m then some (distSq target (boxCenter b), boxCenter b)
    else some (m, p)

def closestFold (target : Point) (players : List BBox) : Option (Int × Point) :=
  players.foldl (closestStep target) none

/-- Lines 129-146: the ball-matching path.  The center of the player box
closest to the ball is accepted only when its distance is below 200
(`min_dist < 200`, embedded as the squared bound `40000`). -/
def ballMatch (ball : Point) (players : List BBox) : Option Point :=
  match closestFold ball players with
  | none => none
  | some (m, p) => if m < 40000 then some p else none

/-- Lines 148-165: fallback to the player box whose center is closest to
the frame's geometric center. -/
def centerFallback (center : Point) (players : List BBox) : Option Point :=
  (closestFold center players).map Prod.snd

/-- `PlayerTracker.find_player_with_ball`, lines 109-165, as a function of
the locator outputs: `None` when no players; otherwise try the ball match
(when a ball was detected) and fall back to the frame-center heuristic with
frame center `(width // 2, height // 2)`. -/
def find_player_with_ball (ballPos : Option Point) (players : List BBox)
    (width height : Int) : Option Point :=
  if players.isEmpty then none
  else
    let viaBall := match ballPos with
      | some b => ballMatch b players
      | none => none
    match viaBall with
    | some p => some p
    | none => centerFallback ⟨width / 2, height / 2⟩ players

/-! ### Position smoother (lines 195-197 and 259-267) -/

/-- Lines 260-262: `position_history.append(player_pos)` followed by
`if len(position_history) > history_size: position_history.pop(0)`. -/
def pushHistory (historySize : Nat) (hist : List Point) (p : Point) : List Point :=
  let h := hist ++ [p]
  if h.length > historySize then h.tail else h

/-- `np.linspace(start, stop, n)` in exact arithmetic: `n` evenly spaced
samples from `start` to `stop` inclusive (a single sample is `start`). -/
def linspace (start stop : ℚ) (n : Nat) : List ℚ :=
  if n = 1 then [start]
  else (List.range n).map (fun i : Nat => start + (stop - start) * (i : ℚ) / ((n - 1 : Nat) : ℚ))

/-- `np.average(values, weights)`: the weighted sum divided by the weight sum. -/
def weightedAvg (vs ws : List ℚ) : ℚ :=
  (List.zipWith (fun a b => a * b) vs ws).sum / ws.sum

/-- Lines 264-267: weights `np.linspace(0.5, 1.0, len(position_history))`,
then `int(np.average(xs, weights))` on each coordinate of the buffer. -/
def smoothPos (hist : List Point) : Point :=
  let ws := linspace (1/2) 1 hist.length
  ⟨intTrunc (weightedAvg (hist.map (fun p => (p.x : ℚ))) ws),
   intTrunc (weightedAvg (hist.map (fun p => (p.y : ℚ))) ws)⟩

/-! ### Tracker lifecycle (`PlayerTracker.track_player_with_ball`, loop body
lines 202-271) -/

/-- Where the frame's emitted raw position came from (the spec's
`SubjectObservation` confidence): fresh detection, a successful tracker
update, or a fallback (last known position or frame center). -/
inductive Confidence where
  | Detected
  | Tracked
  | Fallback
deriving DecidableEq, Repr

/-- The loop-carried state of `track_player_with_ball`.  The CSRT tracker
object is opaque; `trackerGen = none` models `tracker is None`, and the
generation counter increments exactly when the code calls
`cv2.TrackerCSRT_create()` anew, so "same generation" means "same tracker
instance". -/
structure TrackState where
  trackerGen : Option Nat
  trackedBbox : Option BBox
  lastPosition : Option Point
  history : List Point
  frameNum : Nat
deriving DecidableEq, Repr

/-- Lines 220-223: a 150×150 box centered on the detected point, each
component clamped below by 0. -/
def detectionBox (p : Point) : BBox :=
  ⟨max 0 (p.x - 75), max 0 (p.y - 75), 150, 150⟩

/-- One frame's output: the state after the frame, the raw position the
loop settled on (with its provenance) and the smoothed position appended
to `positions`. -/
structure StepResult where
  state : TrackState
  rawPos : Point
  conf : Confidence
  smoothed : Point
deriving DecidableEq, Repr

/-- One iteration of the `while` loop of `track_player_with_ball`
(lines 211-271) for a frame of size `frameW × frameH`.  The opaque
per-frame inputs are `det`, the value `find_player_with_ball` would return
(consulted only when the detection phase runs), and `upd`, the CSRT
tracker's `update` result (`some box` on success), consulted only when a
tracker exists. -/
def stepTrack (detectionInterval : Nat) (frameW frameH : Int)
    (s : TrackState) (det : Option Point) (upd : Option BBox) : StepResult :=
  -- Detection phase (lines 214-235)
  let redetect := s.frameNum % detectionInterval = 0 ∨ s.trackerGen = none
  let s1 :=
    if redetect then
      match det with
      | some p =>
        { s with trackerGen := some (s.trackerGen.getD 0 + 1)
                 trackedBbox := some (detectionBox p)
                 lastPosition := some p }
      | none => s
    else s
  let pos1 : Option (Point × Confidence) :=
    if redetect then det.map (fun p => (p, Confidence.Detected)) else none
  -- Tracking phase (lines 238-248)
  let afterTrack : TrackState × Option (Point × Confidence) :=
    match s1.trackerGen with
    | none => (s1, pos1)
    | some _ =>
      match upd with
      | some b =>
        let c := boxCenter b
        ({ s1 with trackedBbox := some b, lastPosition := some c },
         some (c, Confidence.Tracked))
      | none =>
        match s1.lastPosition with
        | some lp => (s1, some (lp, Confidence.Fallback))
        | none => (s1, pos1)
  let s2 := afterTrack.1
  -- Fallback phase (lines 251-257)
  let posConf : Point × Confidence :=
    match afterTrack.2 with
    | some pc => pc
    | none =>
      match s2.lastPosition with
      | some lp => (lp, Confidence.Fallback)
      | none => (⟨frameW / 2, frameH / 2⟩, Confidence.Fallback)
  -- Smoothing phase (lines 259-267); `history_size = 7` (line 197)
  let hist := pushHistory 7 s2.history posConf.1
  { state := { s2 with history := hist, frameNum := s2.frameNum + 1 }
    rawPos := posConf.1
    conf := posConf.2
    smoothed := smoothPos hist }

/-! ### Crop geometry mapper (`PlayerTracker.get_crop_region`, lines
276-298, and the crop/pad application in `clipper.py` lines 222-240) -/

/-- `PlayerTracker.get_crop_region`: the clamped top-left corner of a
`cropW × cropH` crop centered on `(px, py)` shifted up by
`offset_y = int(crop_height * 0.1)` inside a `frameW × frameH` frame. -/
def get_crop_region (px py frameW frameH cropW cropH : Int) : Int × Int :=
  let offsetY := cropH / 10
  (max 0 (min (px - cropW / 2) (frameW - cropW)),
   max 0 (min (py - cropH / 2 - offsetY) (frameH - cropH)))

/-- The shape of `frame_scaled[cy:cy+cropH, cx:cx+cropW]` under numpy
slice semantics for nonnegative `cx`, `cy`: indices are clamped to the
array bounds, so each extracted extent is
`max 0 (min (start+len) bound - min start bound)`. -/
def croppedSize (frameW frameH cropW cropH cx cy : Int) : Int × Int :=
  (max 0 (min (cx + cropW) frameW - min cx frameW),
   max 0 (min (cy + cropH) frameH - min cy frameH))

/-- The crop geometry mapper: the clamped crop origin from
`get_crop_region` plus the padding signal of `make_frame` (clipper.py
lines 231-233): padding is required exactly when the extracted region is
smaller than the target along some axis (the renderer then centers it in
a zero-filled target-size canvas, lines 234-240). -/
def mapCrop (px py frameW frameH cropW cropH : Int) : (Int × Int) × Bool :=
  let origin := get_crop_region px py frameW frameH cropW cropH
  let sz := croppedSize frameW frameH cropW cropH origin.1 origin.2
  (origin, decide (sz.2 < cropH ∨ sz.1 < cropW))

/-! ## Claim C1: crop rectangle bounds and the padding signal -/

/-- Claim C1: for every smoothed subject point and positive source/target
dimensions, the crop origin emitted by the crop geometry mapper satisfies
`0 ≤ x`, `0 ≤ y`, `x + cropW ≤ frameW` and `y + cropH ≤ frameH` whenever
the (scaled) source is at least as large as the target along both axes,
and no padding is signalled there; when the source is smaller than the
target along some axis, the mapper signals that the extracted region must
be centered and padded instead of producing an out-of-bounds rectangle. -/
theorem C1_crop_bounds (px py frameW frameH cropW cropH : Int)
    (hfw : 0 < frameW) (hfh : 0 < frameH) (hcw : 0 < cropW) (hch : 0 < cropH) :
    ((cropW ≤ frameW ∧ cropH ≤ frameH) →
      0 ≤ (get_crop_region px py frameW frameH cropW cropH).1 ∧
      0 ≤ (get_crop_region px py frameW frameH cropW cropH).2 ∧
      (get_crop_region px py frameW frameH cropW cropH).1 + cropW ≤ frameW ∧
      (get_crop_region px py frameW frameH cropW cropH).2 + cropH ≤ frameH ∧
      (mapCrop px py frameW frameH cropW cropH).2 = false) ∧
    ((frameW < cropW ∨ frameH < cropH) →
      (mapCrop px py frameW frameH cropW cropH).2 = true) := by
  unfold mapCrop get_crop_region croppedSize
  simp only [decide_eq_true_eq, decide_eq_false_iff_not]
  constructor
  · rintro ⟨h1, h2⟩
    refine ⟨by omega, by omega, by omega, by omega, ?_⟩
    rintro (h | h) <;> omega
  · rintro (h | h)
    · exact Or.inr (by omega)
    · exact Or.inl (by omega)

/-- Closed witness for `C1_crop_bounds` at the spec's worked example
(scaled source 3413×1920, target 1080×1920, subject `(1733, 960)`). -/
theorem C1_crop_bounds_witness :
    (0 ≤ (get_crop_region 1733 960 3413 1920 1080 1920).1 ∧
      0 ≤ (get_crop_region 1733 960 3413 1920 1080 1920).2 ∧
      (get_crop_region 1733 960 3413 1920 1080 1920).1 + 1080 ≤ 3413 ∧
      (get_crop_region 1733 960 3413 1920 1080 1920).2 + 1920 ≤ 1920 ∧
      (mapCrop 1733 960 3413 1920 1080 1920).2 = false) :=
  (C1_crop_bounds 1733 960 3413 1920 1080 1920 (by norm_num) (by norm_num)
    (by norm_num) (by norm_num)).1 ⟨by norm_num, by norm_num⟩

/-! ## Claim C9: behaviour of the mapper on degenerate dimensions -/

/-- Claim C9 counterexample: called with zero frame dimensions (caller
misuse), `get_crop_region` does not fail fast — it returns the numeric
crop origin `(0, 0)`.  The Python body (lines 292-298) contains no
assertion, raise, or error result on any path. -/
theorem C9_no_fail_fast_counterexample :
    get_crop_region 10 10 0 0 100 100 = (0, 0) := by decide

/-- Claim C9 amended: the crop geometry mapper performs no input
validation; for nonpositive frame dimensions and positive crop dimensions
it still returns a numeric crop rectangle, namely the clamped origin
`(0, 0)`, rather than an assertion or error result. -/
theorem C9_degenerate_dims_numeric (px py frameW frameH cropW cropH : Int)
    (hfw : frameW ≤ 0) (hfh : frameH ≤ 0) (hcw : 0 < cropW) (hch : 0 < cropH) :
    get_crop_region px py frameW frameH cropW cropH = (0, 0) := by
  unfold get_crop_region
  simp only []
  have h1 : max 0 (min (px - cropW / 2) (frameW - cropW)) = 0 := by omega
  have h2 : max 0 (min (py - cropH / 2 - cropH / 10) (frameH - cropH)) = 0 := by omega
  rw [h1, h2]

/-- Closed witness for `C9_degenerate_dims_numeric`. -/
theorem C9_degenerate_dims_numeric_witness :
    get_crop_region 5 7 (-3) (-2) 50 60 = (0, 0) :=
  C9_degenerate_dims_numeric 5 7 (-3) (-2) 50 60 (by norm_num) (by norm_num)
    (by norm_num) (by norm_num)

/-- `intTrunc` agrees with the floor on nonnegative rationals. -/
lemma intTrunc_eq_floor (q : ℚ) (hq : 0 ≤ q) : intTrunc q = ⌊q⌋ := by
  unfold intTrunc
  rw [Int.tdiv_eq_ediv (Rat.num_nonneg.mpr hq) (Int.ofNat_nonneg _)]
  exact Rat.floor_def.symm

/-- Evaluation rule for `intTrunc` at a nonnegative value with known bounds. -/
lemma intTrunc_eq_of (q : ℚ) (n : Int) (h0 : 0 ≤ n) (h2 : (n : ℚ) ≤ q) (h3 : q < n + 1) :
    intTrunc q = n := by
  have hq : 0 ≤ q := le_trans (by exact_mod_cast h0) h2
  rw [intTrunc_eq_floor q hq]
  exact Int.floor_eq_iff.mpr ⟨h2, h3⟩

/-! ## Claim C8: outlier damping scenario -/

/-- Claim C8: feeding the raw positions `(100,100), (102,101), (500,500),
(104,103), (105,104)` to the smoother with window size 5 and the linearly
increasing 0.5-to-1.0 weights, the single outlier at `(500,500)` shifts the
final smoothed output by less than 40% of the raw jump.  The outlier-free
baseline repeats the preceding raw position `(102,101)` in place of the
outlier; the raw jump is `500 - 102` horizontally and `500 - 101`
vertically, and the shift is compared against 40% of it exactly
(`5·|shift| < 2·jump`). -/
theorem C8_outlier_damping :
    5 * |(smoothPos (([⟨100,100⟩, ⟨102,101⟩, ⟨500,500⟩, ⟨104,103⟩, ⟨105,104⟩] :
            List Point).foldl (pushHistory 5) [])).x -
         (smoothPos (([⟨100,100⟩, ⟨102,101⟩, ⟨102,101⟩, ⟨104,103⟩, ⟨105,104⟩] :
            List Point).foldl (pushHistory 5) [])).x| < 2 * (500 - 102) ∧
    5 * |(smoothPos (([⟨100,100⟩, ⟨102,101⟩, ⟨500,500⟩, ⟨104,103⟩, ⟨105,104⟩] :
            List Point).foldl (pushHistory 5) [])).y -
         (smoothPos (([⟨100,100⟩, ⟨102,101⟩, ⟨102,101⟩, ⟨104,103⟩, ⟨105,104⟩] :
            List Point).foldl (pushHistory 5) [])).y| < 2 * (500 - 101) := by
  have hfA : (([⟨100,100⟩, ⟨102,101⟩, ⟨500,500⟩, ⟨104,103⟩, ⟨105,104⟩] :
      List Point).foldl (pushHistory 5) []) =
      [⟨100,100⟩, ⟨102,101⟩, ⟨500,500⟩, ⟨104,103⟩, ⟨105,104⟩] := by decide
  have hfB : (([⟨100,100⟩, ⟨102,101⟩, ⟨102,101⟩, ⟨104,103⟩, ⟨105,104⟩] :
      List Point).foldl (pushHistory 5) []) =
      [⟨100,100⟩, ⟨102,101⟩, ⟨102,101⟩, ⟨104,103⟩, ⟨105,104⟩] := by decide
  rw [hfA, hfB]
  have hxA : (smoothPos [⟨100,100⟩, ⟨102,101⟩, ⟨500,500⟩, ⟨104,103⟩, ⟨105,104⟩]).x = 182 := by
    show intTrunc _ = 182
    apply intTrunc_eq_of _ 182 (by norm_num) <;>
      norm_num [weightedAvg, linspace, List.range_succ]
  have hyA : (smoothPos [⟨100,100⟩, ⟨102,101⟩, ⟨500,500⟩, ⟨104,103⟩, ⟨105,104⟩]).y = 181 := by
    show intTrunc _ = 181
    apply intTrunc_eq_of _ 181 (by norm_num) <;>
      norm_num [weightedAvg, linspace, List.range_succ]
  have hxB : (smoothPos [⟨100,100⟩, ⟨102,101⟩, ⟨102,101⟩, ⟨104,103⟩, ⟨105,104⟩]).x = 103 := by
    show intTrunc _ = 103
    apply intTrunc_eq_of _ 103 (by norm_num) <;>
      norm_num [weightedAvg, linspace, List.range_succ]
  have hyB : (smoothPos [⟨100,100⟩, ⟨102,101⟩, ⟨102,101⟩, ⟨104,103⟩, ⟨105,104⟩]).y = 102 := by
    show intTrunc _ = 102
    apply intTrunc_eq_of _ 102 (by norm_num) <;>
      norm_num [weightedAvg, linspace, List.range_succ]
  rw [hxA, hyA, hxB, hyB]
  norm_num

/-! ## Claim C7: the smoothing buffer is bounded -/

/-- One push preserves the bound `length ≤ k`. -/
lemma pushHistory_length_le (k : Nat) (hist : List Point) (p : Point)
    (h : hist.length ≤ k) : (pushHistory k hist p).length ≤ k := by
  unfold pushHistory
  dsimp only
  split_ifs with hlen
  · simp only [List.length_tail, List.length_append, List.length_singleton]
    omega
  · simp only [List.length_append, List.length_singleton] at hlen ⊢
    omega

/-- Folding pushes over any input preserves the bound `length ≤ k`. -/
lemma foldl_pushHistory_length_le (k : Nat) (ps : List Point) :
    ∀ hist : List Point, hist.length ≤ k → ((ps.foldl (pushHistory k) hist).length ≤ k) := by
  induction ps with
  | nil => intro hist h; simpa using h
  | cons p ps ih =>
    intro hist h
    simpa using ih (pushHistory k hist p) (pushHistory_length_le k hist p h)

/-- Claim C7: for every sequence of pushed observations, the smoother's
internal history length never exceeds the window size 7 used by the code,
and on overflow the oldest (front) entry is dropped. -/
theorem C7_history_bounded :
    (∀ ps : List Point, ((ps.foldl (pushHistory 7) []).length ≤ 7)) ∧
    (∀ (hist : List Point) (p : Point), hist.length = 7 →
      pushHistory 7 hist p = hist.tail ++ [p]) := by
  constructor
  · intro ps
    exact foldl_pushHistory_length_le 7 ps [] (by simp)
  · intro hist p hlen
    have hne : hist ≠ [] := by
      intro h; rw [h] at hlen; simp at hlen
    unfold pushHistory
    dsimp only
    rw [if_pos (by simp [hlen])]
    exact List.tail_append_of_ne_nil hne

/-- Closed witness for `C7_history_bounded`: eight pushes leave seven
entries, and a push onto a full buffer drops the oldest entry. -/
theorem C7_history_bounded_witness :
    ((([⟨1,1⟩, ⟨2,2⟩, ⟨3,3⟩, ⟨4,4⟩, ⟨5,5⟩, ⟨6,6⟩, ⟨7,7⟩, ⟨8,8⟩] :
        List Point).foldl (pushHistory 7) []).length ≤ 7) ∧
    pushHistory 7 [⟨1,1⟩, ⟨2,2⟩, ⟨3,3⟩, ⟨4,4⟩, ⟨5,5⟩, ⟨6,6⟩, ⟨7,7⟩] ⟨8,8⟩ =
      ([⟨1,1⟩, ⟨2,2⟩, ⟨3,3⟩, ⟨4,4⟩, ⟨5,5⟩, ⟨6,6⟩, ⟨7,7⟩] : List Point).tail ++ [⟨8,8⟩] :=
  ⟨C7_history_bounded.1 [⟨1,1⟩, ⟨2,2⟩, ⟨3,3⟩, ⟨4,4⟩, ⟨5,5⟩, ⟨6,6⟩, ⟨7,7⟩, ⟨8,8⟩],
   C7_history_bounded.2 [⟨1,1⟩, ⟨2,2⟩, ⟨3,3⟩, ⟨4,4⟩, ⟨5,5⟩, ⟨6,6⟩, ⟨7,7⟩] ⟨8,8⟩ rfl⟩

/-! ## Claims C2 and C10: ball localization -/

/-- The fold underlying `largestContour` returns an element of `b :: xs`. -/
lemma foldl_maxArea_mem (xs : List Contour) (b : Contour) :
    xs.foldl (fun best d => if d.area > best.area then d else best) b ∈ b :: xs := by
  induction xs generalizing b with
  | nil => simp
  | cons x xs ih =>
    rw [List.foldl_cons]
    by_cases hx : x.area > b.area
    · rw [if_pos hx]
      rcases List.mem_cons.mp (ih x) with h1 | h1
      · rw [h1]; exact List.mem_cons.mpr (Or.inr (List.mem_cons_self x xs))
      · exact List.mem_cons.mpr (Or.inr (List.mem_cons.mpr (Or.inr h1)))
    · rw [if_neg hx]
      rcases List.mem_cons.mp (ih b) with h1 | h1
      · rw [h1]; exact List.mem_cons_self b (x :: xs)
      · exact List.mem_cons.mpr (Or.inr (List.mem_cons.mpr (Or.inr h1)))

/-- The fold underlying `largestContour` dominates every area in `b :: xs`. -/
lemma foldl_maxArea_le (xs : List Contour) :
    ∀ b : Contour, ∀ d ∈ b :: xs,
      d.area ≤ (xs.foldl (fun best e => if e.area > best.area then e else best) b).area := by
  induction xs with
  | nil => intro b d hd; simp at hd; rw [hd]; simp
  | cons x xs ih =>
    intro b d hd
    rw [List.foldl_cons]
    by_cases hx : x.area > b.area
    · rw [if_pos hx]
      rcases List.mem_cons.mp hd with h1 | h1
      · rw [h1]
        exact le_trans (le_of_lt hx) (ih x x (List.mem_cons_self x xs))
      · rcases List.mem_cons.mp h1 with h2 | h2
        · rw [h2]; exact ih x x (List.mem_cons_self x xs)
        · exact ih x d (List.mem_cons.mpr (Or.inr h2))
    · rw [if_neg hx]
      rcases List.mem_cons.mp hd with h1 | h1
      · rw [h1]; exact ih b b (List.mem_cons_self b xs)
      · rcases List.mem_cons.mp h1 with h2 | h2
        · rw [h2]
          exact le_trans (le_of_not_lt hx) (ih b b (List.mem_cons_self b xs))
        · exact ih b d (List.mem_cons.mpr (Or.inr h2))

/-- Claim C2 counterexample: with two contours of areas 60000 (out of band)
and 100 (inside the `[50, 50000]` band), ball localization returns nothing,
although an in-band contour exists — the area filter is applied only to the
single largest contour, not to all contours. -/
theorem C2_inband_contour_ignored_counterexample :
    detect_ball_position [⟨60000, 60000, 0, 0⟩, ⟨100, 100, 5000, 5000⟩] = none ∧
    (50 : ℚ) ≤ (Contour.mk 100 100 5000 5000).area ∧
    (Contour.mk 100 100 5000 5000).area ≤ 50000 := by
  refine ⟨?_, by norm_num, by norm_num⟩
  show (if (60000 : ℚ) < 50 ∨ (60000 : ℚ) > 50000 then none
    else if (60000 : ℚ) = 0 then none
    else some (⟨intTrunc ((60000 : ℚ) / 60000), intTrunc ((0 : ℚ) / 60000)⟩ : Point)) = none
  norm_num

/-- Claim C2 amended: ball localization selects the single contour of
maximal area (the first such contour under Python's `max`); it returns that
contour's truncated centroid when its area lies inside `[50, 50000]` and
its zeroth moment is nonzero, and returns nothing otherwise — even when a
smaller contour with in-band area exists. -/
theorem C2_area_filter_on_largest_only (contours : List Contour) (c : Contour)
    (hc : largestContour contours = some c) :
    (c ∈ contours ∧ ∀ d ∈ contours, d.area ≤ c.area) ∧
    ((c.area < 50 ∨ c.area > 50000) → detect_ball_position contours = none) ∧
    (50 ≤ c.area → c.area ≤ 50000 → c.m00 ≠ 0 →
      detect_ball_position contours =
        some ⟨intTrunc (c.m10 / c.m00), intTrunc (c.m01 / c.m00)⟩) := by
  cases contours with
  | nil => simp [largestContour] at hc
  | cons b xs =>
    have hcval : xs.foldl (fun best d => if d.area > best.area then d else best) b = c := by
      simpa [largestContour] using hc
    refine ⟨⟨hcval ▸ foldl_maxArea_mem xs b, hcval ▸ foldl_maxArea_le xs b⟩, ?_, ?_⟩
    · intro hout
      unfold detect_ball_position
      rw [hc]
      dsimp only
      rw [if_pos hout]
    · intro h1 h2 h3
      unfold detect_ball_position
      rw [hc]
      dsimp only
      rw [if_neg (by push_neg; exact ⟨by linarith, by linarith⟩), if_neg h3]

/-- Closed witness for `C2_area_filter_on_largest_only`: a single in-band
contour of area 100 with moments `(100, 5000, 5000)` yields its truncated
centroid. -/
theorem C2_area_filter_on_largest_only_witness :
    detect_ball_position [⟨100, 100, 5000, 5000⟩] =
      some ⟨intTrunc ((5000 : ℚ) / 100), intTrunc ((5000 : ℚ) / 100)⟩ :=
  (C2_area_filter_on_largest_only [⟨100, 100, 5000, 5000⟩] ⟨100, 100, 5000, 5000⟩
    rfl).2.2 (by norm_num) (by norm_num) (by norm_num)

/-- Claim C10: the centroid division is totally guarded — when the selected
largest contour has zeroth moment zero, no ball position is returned, and
every returned ball position comes from a contour whose zeroth moment is
nonzero. -/
theorem C10_centroid_division_guarded :
    (∀ (contours : List Contour) (c : Contour), largestContour contours = some c →
      c.m00 = 0 → detect_ball_position contours = none) ∧
    (∀ (contours : List Contour) (p : Point), detect_ball_position contours = some p →
      ∃ c, largestContour contours = some c ∧ c.m00 ≠ 0 ∧
        p = ⟨intTrunc (c.m10 / c.m00), intTrunc (c.m01 / c.m00)⟩) := by
  constructor
  · intro contours c hc hm
    unfold detect_ball_position
    rw [hc]
    dsimp only
    by_cases h1 : c.area < 50 ∨ c.area > 50000
    · rw [if_pos h1]
    · rw [if_neg h1, if_pos hm]
  · intro contours p hp
    unfold detect_ball_position at hp
    cases hc : largestContour contours with
    | none => rw [hc] at hp; exact absurd hp (by simp)
    | some c =>
      rw [hc] at hp
      dsimp only at hp
      split_ifs at hp with h1 h2
      exact ⟨c, rfl, h2, (Option.some_injective _ hp).symm⟩

/-- Closed witness for `C10_centroid_division_guarded`: an in-band contour
with `m00 = 0` produces no ball position. -/
theorem C10_centroid_division_guarded_witness :
    detect_ball_position [⟨100, 0, 1, 2⟩] = none :=
  C10_centroid_division_guarded.1 [⟨100, 0, 1, 2⟩] ⟨100, 0, 1, 2⟩ rfl rfl

/-! ## Claim C4: the ball-matching path respects the match radius -/

/-- Every pair stored by the closest-box scan is a reached box center
together with its own squared distance to the target. -/
lemma closestFold_dist (t : Point) (ps : List BBox) :
    ∀ m p, closestFold t ps = some (m, p) → m = distSq t p := by
  unfold closestFold
  suffices h : ∀ acc : Option (Int × Point),
      (∀ m p, acc = some (m, p) → m = distSq t p) →
      ∀ m p, ps.foldl (closestStep t) acc = some (m, p) → m = distSq t p by
    exact h none (by intro m p hmp; cases hmp)
  induction ps with
  | nil => intro acc hacc m p hmp; exact hacc m p hmp
  | cons b bs ih =>
    intro acc hacc m p hmp
    rw [List.foldl_cons] at hmp
    refine ih (closestStep t acc b) ?_ m p hmp
    intro m' p' h'
    unfold closestStep at h'
    cases acc with
    | none =>
      cases h'
      rfl
    | some mp =>
      obtain ⟨m0, p0⟩ := mp
      dsimp only at h'
      by_cases hd : distSq t (boxCenter b) < m0
      · rw [if_pos hd] at h'
        cases h'
        rfl
      · rw [if_neg hd] at h'
        cases h'
        exact hacc m' p' rfl

/-- Claim C4: whenever the subject selector returns a point via the
ball-matching path, the (squared) distance from the ball to the returned
person-box center is below the match radius 200 (squared: 40000); and in
the spec's concrete scenario — ball `(640,360)` in a 1280×720 frame, one
person box `(600,250,100,220)` with center `(650,360)` — the selector
returns `(650,360)`. -/
theorem C4_ball_match_radius :
    (∀ (ball : Point) (players : List BBox) (p : Point),
      ballMatch ball players = some p → distSq ball p < 40000) ∧
    find_player_with_ball (some ⟨640, 360⟩) [⟨600, 250, 100, 220⟩] 1280 720 =
      some ⟨650, 360⟩ := by
  constructor
  · intro ball players p hp
    unfold ballMatch at hp
    cases hcf : closestFold ball players with
    | none => rw [hcf] at hp; cases hp
    | some mp =>
      obtain ⟨m, q⟩ := mp
      rw [hcf] at hp
      dsimp only at hp
      by_cases hm : m < 40000
      · rw [if_pos hm] at hp
        cases hp
        exact (closestFold_dist ball players m p hcf) ▸ hm
      · rw [if_neg hm] at hp
        cases hp
  · decide

/-- Closed witness for `C4_ball_match_radius` at the spec's scenario. -/
theorem C4_ball_match_radius_witness :
    distSq ⟨640, 360⟩ ⟨650, 360⟩ < 40000 :=
  C4_ball_match_radius.1 ⟨640, 360⟩ [⟨600, 250, 100, 220⟩] ⟨650, 360⟩ (by decide)

/-! ## Claim C5: the frame-center fallback picks the first closest box -/

/-- Folding the closest-box scan from a `some` accumulator never yields
`none`. -/
lemma foldl_closestStep_ne_none (t : Point) (bs : List BBox) :
    ∀ x : Int × Point, bs.foldl (closestStep t) (some x) ≠ none := by
  induction bs with
  | nil => intro x h; cases h
  | cons b bs ih =>
    intro x
    rw [List.foldl_cons]
    obtain ⟨m, p⟩ := x
    unfold closestStep
    dsimp only
    by_cases hd : distSq t (boxCenter b) < m
    · rw [if_pos hd]; exact ih _
    · rw [if_neg hd]; exact ih _

/-- `closestFold` returns `none` only on the empty list. -/
lemma closestFold_eq_none (t : Point) (ps : List BBox) (h : closestFold t ps = none) :
    ps = [] := by
  cases ps with
  | nil => rfl
  | cons b bs =>
    exfalso
    unfold closestFold at h
    rw [List.foldl_cons] at h
    have hstep : closestStep t none b = some (distSq t (boxCenter b), boxCenter b) := rfl
    rw [hstep] at h
    exact foldl_closestStep_ne_none t bs _ h

/-- Characterisation of the closest-box scan: the result is the first box
center attaining the minimal squared distance to the target. -/
lemma closestFold_first_min (t : Point) (ps : List BBox) :
    ∀ m p, closestFold t ps = some (m, p) →
    ∃ pre b post, ps = pre ++ b :: post ∧ p = boxCenter b ∧ m = distSq t (boxCenter b) ∧
      (∀ b' ∈ ps, m ≤ distSq t (boxCenter b')) ∧
      (∀ b' ∈ pre, m < distSq t (boxCenter b')) := by
  induction ps using List.reverseRecOn with
  | nil => intro m p h; cases h
  | append_singleton ps b ih =>
    intro m p h
    have hsplit : closestFold t (ps ++ [b]) = closestStep t (closestFold t ps) b := by
      unfold closestFold
      rw [List.foldl_append, List.foldl_cons, List.foldl_nil]
    rw [hsplit] at h
    cases hf : closestFold t ps with
    | none =>
      have hnil : ps = [] := closestFold_eq_none t ps hf
      rw [hf] at h
      have hstep : closestStep t none b = some (distSq t (boxCenter b), boxCenter b) := rfl
      rw [hstep] at h
      cases h
      subst hnil
      refine ⟨[], b, [], rfl, rfl, rfl, ?_, ?_⟩
      · intro b' hb'
        simp only [List.nil_append, List.mem_singleton] at hb'
        subst hb'
        exact le_rfl
      · intro b' hb'
        simp at hb'
    | some x =>
      obtain ⟨m0, p0⟩ := x
      rw [hf] at h
      unfold closestStep at h
      dsimp only at h
      obtain ⟨pre, b0, post, hdecomp, hp0, hm0, hmin, hstrict⟩ := ih m0 p0 hf
      by_cases hd : distSq t (boxCenter b) < m0
      · rw [if_pos hd] at h
        cases h
        refine ⟨ps, b, [], rfl, rfl, rfl, ?_, ?_⟩
        · intro b' hb'
          rcases List.mem_append.mp hb' with h1 | h1
          · exact le_of_lt (lt_of_lt_of_le hd (hmin b' h1))
          · simp only [List.mem_singleton] at h1
            subst h1
            exact le_rfl
        · intro b' hb'
          exact lt_of_lt_of_le hd (hmin b' hb')
      · rw [if_neg hd] at h
        cases h
        refine ⟨pre, b0, post ++ [b], ?_, hp0, hm0, ?_, hstrict⟩
        · rw [hdecomp]; simp
        · intro b' hb'
          rcases List.mem_append.mp hb' with h1 | h1
          · exact hmin b' h1
          · simp only [List.mem_singleton] at h1
            subst h1
            exact le_of_not_lt hd

/-- Claim C5: when no ball was detected (or the ball match was rejected)
and person boxes exist, the subject selector returns the center of the
person box closest to the frame's geometric center `(w // 2, h // 2)`,
ties won by the first box encountered; concretely, with boxes centered at
`(200,360)` and `(700,360)` in a 1280×720 frame it returns `(700,360)`. -/
theorem C5_center_fallback_first_closest :
    (∀ (center : Point) (players : List BBox) (p : Point),
      centerFallback center players = some p →
      ∃ pre b post, players = pre ++ b :: post ∧ p = boxCenter b ∧
        (∀ b' ∈ players, distSq center (boxCenter b) ≤ distSq center (boxCenter b')) ∧
        (∀ b' ∈ pre, distSq center (boxCenter b) < distSq center (boxCenter b'))) ∧
    (∀ (center : Point) (players : List BBox), players ≠ [] →
      ∃ p, centerFallback center players = some p) ∧
    (∀ (players : List BBox) (width height : Int), players ≠ [] →
      find_player_with_ball none players width height =
        centerFallback ⟨width / 2, height / 2⟩ players) ∧
    (∀ (ball : Point) (players : List BBox) (width height : Int), players ≠ [] →
      ballMatch ball players = none →
      find_player_with_ball (some ball) players width height =
        centerFallback ⟨width / 2, height / 2⟩ players) ∧
    find_player_with_ball none [⟨150, 300, 100, 120⟩, ⟨650, 300, 100, 120⟩] 1280 720 =
      some ⟨700, 360⟩ := by
  refine ⟨?_, ?_, ?_, ?_, by decide⟩
  · intro center players p hp
    unfold centerFallback at hp
    cases hcf : closestFold center players with
    | none => rw [hcf] at hp; cases hp
    | some x =>
      obtain ⟨m, q⟩ := x
      rw [hcf] at hp
      simp only [Option.map_some'] at hp
      cases hp
      obtain ⟨pre, b, post, hdecomp, hpb, hmb, hmin, hstrict⟩ :=
        closestFold_first_min center players m p hcf
      exact ⟨pre, b, post, hdecomp, hpb,
        fun b' hb' => hmb ▸ hmin b' hb', fun b' hb' => hmb ▸ hstrict b' hb'⟩
  · intro center players hne
    cases hcf : closestFold center players with
    | none => exact absurd (closestFold_eq_none center players hcf) hne
    | some x => exact ⟨x.2, by simp [centerFallback, hcf]⟩
  · intro players width height hne
    unfold find_player_with_ball
    rw [if_neg (by simpa [List.isEmpty_iff] using hne)]
  · intro ball players width height hne hbm
    unfold find_player_with_ball
    rw [if_neg (by simpa [List.isEmpty_iff] using hne)]
    dsimp only
    rw [hbm]

/-- Closed witness for `C5_center_fallback_first_closest` at the spec's
scenario: the returned point `(700,360)` is the center of the second box,
the unique minimiser of the distance to the frame center `(640,360)`. -/
theorem C5_center_fallback_first_closest_witness :
    ∃ pre b post,
      ([⟨150, 300, 100, 120⟩, ⟨650, 300, 100, 120⟩] : List BBox) = pre ++ b :: post ∧
      (⟨700, 360⟩ : Point) = boxCenter b ∧
      (∀ b' ∈ ([⟨150, 300, 100, 120⟩, ⟨650, 300, 100, 120⟩] : List BBox),
        distSq ⟨640, 360⟩ (boxCenter b) ≤ distSq ⟨640, 360⟩ (boxCenter b')) ∧
      (∀ b' ∈ pre, distSq ⟨640, 360⟩ (boxCenter b) < distSq ⟨640, 360⟩ (boxCenter b')) :=
  C5_center_fallback_first_closest.1 ⟨640, 360⟩
    [⟨150, 300, 100, 120⟩, ⟨650, 300, 100, 120⟩] ⟨700, 360⟩ (by decide)

/-! ## Claim C3: redetection miss while tracking -/

/-- Claim C3 counterexample: in the Tracking state (tracker generation 1,
last known position `(100,100)`) on a frame where scheduled redetection
fires (`frameNum = 2`, interval 2) and detection finds nothing, the loop
does NOT emit a Fallback at the last known position: the tracking phase
still runs, the tracker update succeeds with box `(300,300,150,150)`, and
the emitted observation is `Tracked` at that box's center `(375,375)`,
with the stored tracked box overwritten. -/
theorem C3_redetect_miss_counterexample :
    (stepTrack 2 1280 720 ⟨some 1, some ⟨0, 0, 150, 150⟩, some ⟨100, 100⟩, [⟨100, 100⟩], 2⟩
        none (some ⟨300, 300, 150, 150⟩)).conf = Confidence.Tracked ∧
    (stepTrack 2 1280 720 ⟨some 1, some ⟨0, 0, 150, 150⟩, some ⟨100, 100⟩, [⟨100, 100⟩], 2⟩
        none (some ⟨300, 300, 150, 150⟩)).rawPos = ⟨375, 375⟩ ∧
    (stepTrack 2 1280 720 ⟨some 1, some ⟨0, 0, 150, 150⟩, some ⟨100, 100⟩, [⟨100, 100⟩], 2⟩
        none (some ⟨300, 300, 150, 150⟩)).state.trackedBbox = some ⟨300, 300, 150, 150⟩ ∧
    ((⟨375, 375⟩ : Point) ≠ (⟨100, 100⟩ : Point)) := by
  refine ⟨by decide, by decide, by decide, by decide⟩

/-- Claim C3 amended: when scheduled redetection fires in the Tracking
state and the detector/selector find no subject, the tracker is indeed not
reset (its generation is unchanged); but the frame is then handled by the
normal tracking phase: if the existing tracker advances successfully the
emitted observation is `Tracked` at the updated box center and the tracked
box and last position are overwritten; only if the tracker also fails does
the loop emit `Fallback` reusing the last known position, leaving the
tracked box and last position unchanged. -/
theorem C3_redetect_miss_no_reset (interval : Nat) (frameW frameH : Int)
    (s : TrackState) (g : Nat) (upd : Option BBox)
    (hg : s.trackerGen = some g) (hre : s.frameNum % interval = 0) :
    (stepTrack interval frameW frameH s none upd).state.trackerGen = some g ∧
    (∀ b, upd = some b →
      (stepTrack interval frameW frameH s none upd).rawPos = boxCenter b ∧
      (stepTrack interval frameW frameH s none upd).conf = Confidence.Tracked ∧
      (stepTrack interval frameW frameH s none upd).state.trackedBbox = some b ∧
      (stepTrack interval frameW frameH s none upd).state.lastPosition =
        some (boxCenter b)) ∧
    (upd = none →
      (stepTrack interval frameW frameH s none upd).state.trackedBbox = s.trackedBbox ∧
      (stepTrack interval frameW frameH s none upd).state.lastPosition = s.lastPosition ∧
      (∀ lp, s.lastPosition = some lp →
        (stepTrack interval frameW frameH s none upd).rawPos = lp ∧
        (stepTrack interval frameW frameH s none upd).conf = Confidence.Fallback)) := by
  cases upd with
  | some b =>
    refine ⟨?_, ?_, ?_⟩
    · simp [stepTrack, hre, hg]
    · intro b' hb'
      cases hb'
      refine ⟨?_, ?_, ?_, ?_⟩ <;> simp [stepTrack, hre, hg]
    · intro h; cases h
  | none =>
    have hcases : s.lastPosition = none ∨ ∃ lp, s.lastPosition = some lp := by
      cases s.lastPosition with
      | none => exact Or.inl rfl
      | some lp => exact Or.inr ⟨lp, rfl⟩
    refine ⟨?_, ?_, ?_⟩
    · rcases hcases with hlp | ⟨lp, hlp⟩ <;> simp [stepTrack, hre, hg, hlp]
    · intro b hb; cases hb
    · intro h
      refine ⟨?_, ?_, ?_⟩
      · rcases hcases with hlp | ⟨lp, hlp⟩ <;> simp [stepTrack, hre, hg, hlp]
      · rcases hcases with hlp | ⟨lp, hlp⟩ <;> simp [stepTrack, hre, hg, hlp]
      · intro lp hlp
        refine ⟨?_, ?_⟩ <;> simp [stepTrack, hre, hg, hlp]

/-- Closed witness for `C3_redetect_miss_no_reset`: the concrete Tracking
state of the counterexample, with a successful tracker update. -/
theorem C3_redetect_miss_no_reset_witness :
    (stepTrack 2 1280 720 ⟨some 1, some ⟨0, 0, 150, 150⟩, some ⟨100, 100⟩, [⟨100, 100⟩], 2⟩
        none (some ⟨300, 300, 150, 150⟩)).state.trackerGen = some 1 ∧
    (stepTrack 2 1280 720 ⟨some 1, some ⟨0, 0, 150, 150⟩, some ⟨100, 100⟩, [⟨100, 100⟩], 2⟩
        none (some ⟨300, 300, 150, 150⟩)).rawPos = boxCenter ⟨300, 300, 150, 150⟩ ∧
    (stepTrack 2 1280 720 ⟨some 1, some ⟨0, 0, 150, 150⟩, some ⟨100, 100⟩, [⟨100, 100⟩], 2⟩
        none (some ⟨300, 300, 150, 150⟩)).conf = Confidence.Tracked := by
  have h := C3_redetect_miss_no_reset 2 1280 720
    ⟨some 1, some ⟨0, 0, 150, 150⟩, some ⟨100, 100⟩, [⟨100, 100⟩], 2⟩ 1
    (some ⟨300, 300, 150, 150⟩) rfl rfl
  exact ⟨h.1, (h.2.1 ⟨300, 300, 150, 150⟩ rfl).1, (h.2.1 ⟨300, 300, 150, 150⟩ rfl).2.1⟩

/-! ## Claim C6: the smoother computes the claimed weighted average -/

/-- The weight formula stated by the spec: the `i`-th of `n` linearly
increasing weights, `0.5` on the oldest retained position (`i = 0`) and
`1.0` on the newest (`i = n - 1`). -/
def specWeight (n i : Nat) : ℚ := 1 / 2 + (1 / 2) * i / ((n - 1 : Nat) : ℚ)

/-- Summing a function mapped over `List.range` is a `Finset.range` sum. -/
lemma sum_map_range (f : ℕ → ℚ) (n : ℕ) :
    ((List.range n).map f).sum = ∑ i in Finset.range n, f i := by
  induction n with
  | zero => simp
  | succ n ih =>
    rw [List.range_succ, List.map_append, List.sum_append, Finset.sum_range_succ, ih]
    simp

/-- The pointwise-product sum of a list with range-indexed weights is the
corresponding index sum. -/
lemma zipWith_mul_sum (xs : List ℚ) :
    ∀ f : ℕ → ℚ,
      (List.zipWith (fun a b => a * b) xs ((List.range xs.length).map f)).sum =
        ∑ i in Finset.range xs.length, f i * xs.getD i 0 := by
  induction xs with
  | nil => intro f; simp
  | cons a as ih =>
    intro f
    rw [List.length_cons, List.range_succ_eq_map, List.map_cons, List.zipWith_cons_cons,
      List.sum_cons, List.map_map, Finset.sum_range_succ']
    have hih := ih (fun i => f (i + 1))
    simp only [List.getD_cons_succ, List.getD_cons_zero, Function.comp]
    rw [show (List.map (fun i => f (i + 1)) (List.range as.length)) =
        (List.map (fun i => f (i + 1)) (List.range as.length)) from rfl] at hih
    calc a * f 0 + (List.zipWith (fun a b => a * b) as
          (List.map (fun x => f (x + 1)) (List.range as.length))).sum
        = a * f 0 + ∑ i in Finset.range as.length, f (i + 1) * as.getD i 0 := by rw [hih]
      _ = (∑ i in Finset.range as.length, f (i + 1) * as.getD i 0) + f 0 * a := by ring

/-- For `n ≠ 1`, `np.linspace(0.5, 1.0, n)` lists exactly the spec's
weights. -/
lemma linspace_eq_specWeight (n : Nat) (hn : n ≠ 1) :
    linspace (1 / 2) 1 n = (List.range n).map (specWeight n) := by
  unfold linspace
  rw [if_neg hn]
  refine List.map_congr_left ?_
  intro i _
  unfold specWeight
  ring

/-- Claim C6: for every push leaving at least two positions in the buffer,
the smoother's output equals the weighted average of the raw positions in
the buffer with linearly increasing weights — `0.5` on the oldest retained
position, `1.0` on the newest, constant increment — truncated to integer
pixel coordinates. -/
theorem C6_smoother_weighted_average (a b : Point) (t : List Point) :
    (smoothPos (a :: b :: t)).x =
      intTrunc ((∑ i in Finset.range (t.length + 2),
          specWeight (t.length + 2) i * (((a :: b :: t).getD i ⟨0, 0⟩).x : ℚ)) /
        (∑ i in Finset.range (t.length + 2), specWeight (t.length + 2) i)) ∧
    (smoothPos (a :: b :: t)).y =
      intTrunc ((∑ i in Finset.range (t.length + 2),
          specWeight (t.length + 2) i * (((a :: b :: t).getD i ⟨0, 0⟩).y : ℚ)) /
        (∑ i in Finset.range (t.length + 2), specWeight (t.length + 2) i)) ∧
    specWeight (t.length + 2) 0 = 1 / 2 ∧
    specWeight (t.length + 2) (t.length + 1) = 1 ∧
    (∀ i, specWeight (t.length + 2) (i + 1) - specWeight (t.length + 2) i =
      1 / (2 * ((t.length + 1 : Nat) : ℚ))) := by
  have hlen : (a :: b :: t).length = t.length + 2 := by simp
  have hne1 : t.length + 2 ≠ 1 := by omega
  have hsub : ((t.length + 2 - 1 : Nat) : ℚ) = ((t.length + 1 : Nat) : ℚ) := by
    norm_cast
  have hpos : ((t.length + 1 : Nat) : ℚ) ≠ 0 := by
    exact_mod_cast Nat.succ_ne_zero t.length
  have key : ∀ g : Point → ℚ, g ⟨0, 0⟩ = 0 →
      weightedAvg ((a :: b :: t).map g) (linspace (1 / 2) 1 (a :: b :: t).length) =
        (∑ i in Finset.range (t.length + 2),
          specWeight (t.length + 2) i * g ((a :: b :: t).getD i ⟨0, 0⟩)) /
        (∑ i in Finset.range (t.length + 2), specWeight (t.length + 2) i) := by
    intro g hg0
    rw [hlen, linspace_eq_specWeight (t.length + 2) hne1]
    unfold weightedAvg
    have hxlen : ((a :: b :: t).map g).length = t.length + 2 := by simp
    rw [sum_map_range]
    have hz := zipWith_mul_sum ((a :: b :: t).map g) (specWeight (t.length + 2))
    rw [hxlen] at hz
    rw [hz]
    have hgetD : ∀ i : ℕ, (List.map g (a :: b :: t)).getD i 0 =
        g ((a :: b :: t).getD i ⟨0, 0⟩) := by
      intro i
      have hmap : (List.map g (a :: b :: t)).getD i (g ⟨0, 0⟩) =
          g ((a :: b :: t).getD i ⟨0, 0⟩) := List.getD_map (a :: b :: t) ⟨0, 0⟩ g
      rw [hg0] at hmap
      exact hmap
    congr 1
    exact Finset.sum_congr rfl (fun i _ => by rw [hgetD i])
  constructor
  · show intTrunc (weightedAvg ((a :: b :: t).map (fun p => (p.x : ℚ)))
      (linspace (1 / 2) 1 (a :: b :: t).length)) = _
    rw [key (fun p => ((p.x : ℚ))) (by norm_num)]
  refine ⟨?_, ?_, ?_, ?_⟩
  · show intTrunc (weightedAvg ((a :: b :: t).map (fun p => (p.y : ℚ)))
      (linspace (1 / 2) 1 (a :: b :: t).length)) = _
    rw [key (fun p => ((p.y : ℚ))) (by norm_num)]
  · unfold specWeight
    norm_num
  · unfold specWeight
    rw [hsub]
    push_cast
    field_simp
    ring
  · intro i
    unfold specWeight
    rw [hsub]
    push_cast
    field_simp

end NBAShortener
